import Mathlib

/-!
Verification development for the pixel font baker (`pixel_font_baker`), a
single-header C++ library that bakes BDF bitmap fonts and TTF outline fonts
into a packed monospace 1-bit-per-pixel glyph table (`Pixel_Font`).

The definitions below are a shallow embedding of the implementation file
(`create_pixel_font_from_bdf`, `create_pixel_font_from_ttf` and their helper
lambdas).  C machine integers are modelled as `Nat`/`Int` with explicit
truncation (`% 256`, `% 65536`, `% 4294967296`) exactly where the C code
performs an integer conversion, and C `/` and `%` on signed operands are
modelled with `Int.tdiv` / `Int.tmod` (truncation towards zero), matching
C99 semantics.  File contents are modelled as the `List Char` of their
bytes; the cursor of the hand-written scanner is the remaining suffix of
that list.  Reads of the byte under the cursor when the remaining length
is zero hit the NUL terminator of the `read_entire_file` buffer in C, which
is neither whitespace nor a newline, so they are modelled by `List.headD`
with a non-matching default (the helpers below simply stop on `[]`).
-/

namespace PixelFontBaker

set_option maxHeartbeats 1000000

/-- Unsigned 16-bit truncation of a C `int`, as in a `u16 = s32` store. -/
def u16OfInt (i : Int) : Nat := (i % 65536).toNat

/-- Unsigned 32-bit truncation of a C `int`, as in a `u32 = s32` store or a
conversion of a signed operand in `u32` arithmetic. -/
def u32OfInt (i : Int) : Nat := (i % 4294967296).toNat

/-- Reinterpretation of a `u32` value as `s32`, as in the cast
`(s32)unicode_cp_start` of the codepoint range check. -/
def s32OfU32 (n : Nat) : Int :=
  if n % 4294967296 < 2147483648 then ((n % 4294967296 : Nat) : Int)
  else ((n % 4294967296 : Nat) : Int) - 4294967296

/-! ### The BDF text scanner

Embedding of the cursor lambdas of `create_pixel_font_from_bdf`:
`is_on_newline`, `is_on_whitespace`, `eat_whitespace`, `eat_until_next_line`
and `eat_until_line_that_starts_with_and_skip`. -/

/-- The `is_on_newline` predicate of the scanner. -/
def isNewlineChar (c : Char) : Bool := c = '\r' || c = '\n'

/-- The `is_on_whitespace` predicate of the scanner. -/
def isWsChar (c : Char) : Bool := c = ' ' || c = '\t' || isNewlineChar c

/-- The scanner's `eat_whitespace`: advance while the byte under the cursor
is whitespace (stops at end of input on the NUL terminator). -/
def eat_whitespace : List Char → List Char
  | [] => []
  | c :: rest => if isWsChar c then eat_whitespace rest else c :: rest

/-- First phase of `eat_until_next_line`: advance until the byte under the
cursor is a newline or the input is exhausted. -/
def dropToNewline : List Char → List Char
  | [] => []
  | c :: rest => if isNewlineChar c then c :: rest else dropToNewline rest

/-- The scanner's `eat_until_next_line`: find the newline, then eat all
whitespace. -/
def eat_until_next_line (l : List Char) : List Char :=
  eat_whitespace (dropToNewline l)

/-- Loop body of `eat_until_line_that_starts_with_and_skip`.  The C loop
`while (strncmp(cursor.data, to_search, n) != 0 && cursor.length > 0)
eat_until_next_line();` followed by `advance_cursor(min(length, n))`.
`strncmp` returning `0` is `tok.isPrefixOf l` because the tokens contain no
NUL byte.  The `fuel` argument is a structural bound on the number of loop
iterations: every call passes the current cursor length, and each
`eat_until_next_line` on a non-empty cursor strictly shrinks it (see
`eat_until_next_line_length_lt`), so the `(0, _ :: _)` arm is never
reached from the call sites below. -/
def seekAux (tok : List Char) : Nat → List Char → List Char
  | fuel, l =>
    if tok.isPrefixOf l then l.drop tok.length
    else
      match fuel, l with
      | _, [] => []
      | 0, _ :: _ => []
      | fuel + 1, c :: rest => seekAux tok fuel (eat_until_next_line (c :: rest))

/-- The scanner's `eat_until_line_that_starts_with_and_skip`: eat
whitespace, then scan line by line for a line starting with `tok`, then
skip `tok` (skipping nothing when the input was exhausted, because of the
`min` in `advance_cursor((s32)min(cursor.length, to_search_length))`). -/
def seekTok (tok l : List Char) : List Char :=
  let l1 := eat_whitespace l
  seekAux tok l1.length l1

/-! ### Models of the `sscanf` conversions used by the builder -/

/-- C `isspace` for the default locale, as skipped by `%d` / `%x`. -/
def isCWsChar (c : Char) : Bool :=
  c = ' ' || c = '\t' || c = '\n' || c = '\r' || c = '\x0b' || c = '\x0c'

/-- Skip the whitespace an `sscanf` conversion skips. -/
def dropCWs : List Char → List Char
  | [] => []
  | c :: rest => if isCWsChar c then dropCWs rest else c :: rest

/-- Decimal digit test. -/
def isDigitChar (c : Char) : Bool := decide ('0' ≤ c) && decide (c ≤ '9')

/-- Split a maximal run of decimal digits off the front of the input. -/
def takeDigits : List Char → List Char × List Char
  | [] => ([], [])
  | c :: rest =>
    if isDigitChar c then
      let r := takeDigits rest
      (c :: r.1, r.2)
    else ([], c :: rest)

/-- Value of a digit run (most significant digit first). -/
def digitsToNat : List Char → Nat → Nat
  | [], acc => acc
  | c :: rest, acc => digitsToNat rest (acc * 10 + (c.toNat - 48))

/-- Model of one `%d` conversion of `sscanf`: skip whitespace, optional
sign, then at least one decimal digit; returns the value and the rest of
the input, or `none` on a matching failure.  The value is kept as a
mathematical integer; inputs whose fields overflow `s32` are undefined
behaviour in C and are excluded by the hypotheses of the theorems below. -/
def parseIntC (l : List Char) : Option (Int × List Char) :=
  match dropCWs l with
  | '-' :: rest =>
    let r := takeDigits rest
    if r.1 = [] then none else some (-((digitsToNat r.1 0 : Nat) : Int), r.2)
  | '+' :: rest =>
    let r := takeDigits rest
    if r.1 = [] then none else some (((digitsToNat r.1 0 : Nat) : Int), r.2)
  | l1 =>
    let r := takeDigits l1
    if r.1 = [] then none else some (((digitsToNat r.1 0 : Nat) : Int), r.2)

/-- Model of `sscanf(cursor.data, "%d %d %d %d", ...)` on the
`FONTBOUNDINGBOX` line: four `%d` conversions in sequence; `none` when
fewer than four parse (the builder only distinguishes `== 4`). -/
def scan4Ints (l : List Char) : Option (Int × Int × Int × Int) :=
  match parseIntC l with
  | none => none
  | some (a, l1) =>
    match parseIntC l1 with
    | none => none
    | some (b, l2) =>
      match parseIntC l2 with
      | none => none
      | some (c, l3) =>
        match parseIntC l3 with
        | none => none
        | some (d, _) => some (a, b, c, d)

/-- Hexadecimal digit test for `%x`. -/
def isHexDigitChar (c : Char) : Bool :=
  (decide ('0' ≤ c) && decide (c ≤ '9')) ||
  (decide ('a' ≤ c) && decide (c ≤ 'f')) ||
  (decide ('A' ≤ c) && decide (c ≤ 'F'))

/-- Value of a hexadecimal digit. -/
def hexVal (c : Char) : Nat :=
  if decide ('0' ≤ c) && decide (c ≤ '9') then c.toNat - 48
  else if decide ('a' ≤ c) && decide (c ≤ 'f') then c.toNat - 87
  else if decide ('A' ≤ c) && decide (c ≤ 'F') then c.toNat - 55
  else 0

/-- Model of `sscanf(cursor.data, "%2x", &value)`: skip whitespace, then
read one or two hexadecimal digits (matching failure when the first
non-blank byte is not a hexadecimal digit).  The glyph inputs of this
development never carry a `0x` prefix, so that corner of `%x` is not
modelled. -/
def parse2Hex (l : List Char) : Option Nat :=
  match dropCWs l with
  | a :: b :: _ =>
    if isHexDigitChar a then
      if isHexDigitChar b then some (hexVal a * 16 + hexVal b) else some (hexVal a)
    else none
  | [a] => if isHexDigitChar a then some (hexVal a) else none
  | [] => none

/-! ### The output data structure and the error enumeration -/

/-- The `Pixel_Font` struct.  The owned byte buffer `table` is modelled as
the list of its byte values. -/
structure Pixel_Font where
  table : List Nat
  char_px_width : Nat
  char_px_height : Nat
  bytes_per_line : Nat
  bytes_per_glyph : Nat
deriving DecidableEq, Repr

/-- The `Pixel_Font_Baker_Error` enumeration. -/
inductive Pixel_Font_Baker_Error where
  | SUCCESS
  | MALLOC_FAILED
  | FONT_FILE_COULD_NOT_BE_OPENED
  | BDF_DID_NOT_SPECIFY_FONTBOUNDINGBOX
  | BDF_DID_NOT_SPECIFY_FONTBOUNDINGBOX_CORRECTLY
  | BDF_DID_NOT_SPECIFY_CODEPOINT_CORRECTLY
  | BDF_ERROR_PARSING_CHARACTER_BYTES
  | STB_TRUETYPE_FAILED
deriving DecidableEq, Repr

/-! ### The BDF glyph table builder -/

/-- The token `"FONTBOUNDINGBOX "` (with the trailing space, as in the C
string literal). -/
def fbbTok : List Char := "FONTBOUNDINGBOX ".toList

/-- The token `"ENCODING "` (with the trailing space). -/
def encTok : List Char := "ENCODING ".toList

/-- The token `"BITMAP"`. -/
def bmpTok : List Char := "BITMAP".toList

/-- Inner column loop of the bitmap-row reader: for each of the
`bytes_per_line` bytes of a row, parse two hex digits with `%2x`, store the
byte (`*table_entry = (u8)value; ++table_entry;`) and advance the cursor by
two.  Returns success flag, table, next write index and remaining cursor;
on a parse failure the partially written table is kept, as in C. -/
def parseCols : Nat → List Nat → Nat → List Char → Bool × List Nat × Nat × List Char
  | 0, tbl, idx, l => (true, tbl, idx, l)
  | n + 1, tbl, idx, l =>
    match parse2Hex l with
    | none => (false, tbl, idx, l)
    | some v => parseCols n (tbl.set idx (v % 256)) (idx + 1) (l.drop 2)

/-- Row loop of the bitmap reader: `char_px_height` rows of
`bytes_per_line` bytes each, eating trailing whitespace after each row. -/
def parseRows : Nat → Nat → List Nat → Nat → List Char → Bool × List Nat × List Char
  | 0, _, tbl, _, l => (true, tbl, l)
  | r + 1, bpl, tbl, idx, l =>
    match parseCols bpl tbl idx l with
    | (false, tbl1, _, l1) => (false, tbl1, l1)
    | (true, tbl1, idx1, l1) => parseRows r bpl tbl1 idx1 (eat_whitespace l1)

/-- The `while (cursor.length > 0)` glyph loop of
`create_pixel_font_from_bdf`: seek `"ENCODING "`, parse the codepoint, skip
out-of-range glyphs, seek `"BITMAP"`, bounds-check the remaining input and
read the bitmap rows into the glyph's slot.  `fuel` structurally bounds the
number of iterations; it is called with the cursor length, which suffices
because each iteration strictly shrinks the cursor (the `"ENCODING "` seek
either empties the cursor, ending the loop, or consumes at least the token),
so the `(0, tbl, _ :: _)` arm is never reached. -/
def glyphLoop (cps cpe ch bpl bpg : Nat) :
    Nat → List Nat → List Char → Pixel_Font_Baker_Error × List Nat
  | _, tbl, [] => (.SUCCESS, tbl)
  | 0, tbl, _ :: _ => (.SUCCESS, tbl)
  | fuel + 1, tbl, c0 :: rest =>
    let c1 := seekTok encTok (c0 :: rest)
    if c1 = [] then (.SUCCESS, tbl)
    else
      match parseIntC c1 with
      | none => (.BDF_DID_NOT_SPECIFY_CODEPOINT_CORRECTLY, tbl)
      | some (cp, _) =>
        if cp < s32OfU32 cps || s32OfU32 cpe < cp then
          glyphLoop cps cpe ch bpl bpg fuel tbl c1
        else
          let idx0 := (bpg * u32OfInt (cp - (cps : Int))) % 4294967296
          let c2 := eat_whitespace (seekTok bmpTok c1)
          if ch * (2 * bpl + 1) ≥ c2.length then (.BDF_ERROR_PARSING_CHARACTER_BYTES, tbl)
          else
            match parseRows ch bpl tbl idx0 c2 with
            | (false, tbl1, _) => (.BDF_ERROR_PARSING_CHARACTER_BYTES, tbl1)
            | (true, tbl1, c3) => glyphLoop cps cpe ch bpl bpg fuel tbl1 c3

/-- Embedding of `create_pixel_font_from_bdf`, taking the file contents as
bytes (the `FILE_COULD_NOT_BE_OPENED` and `MALLOC_FAILED` paths concern the
I/O and allocator collaborators and always succeed in this model).  The
result pairs the returned error code with the final state of `*out_font`;
on the two pre-allocation error paths the caller's struct is returned
untouched, as in C.  The `memset` fill constants are the original binary
literals truncated to their low byte, exactly as `memset`'s `int`-to-
`unsigned char` conversion truncates them. -/
def create_pixel_font_from_bdf (content : List Char) (cps cpe : Nat) (out : Pixel_Font) :
    Pixel_Font_Baker_Error × Pixel_Font :=
  let cursor := seekTok fbbTok content
  if cursor.length = 0 then (.BDF_DID_NOT_SPECIFY_FONTBOUNDINGBOX, out)
  else
    match scan4Ints cursor with
    | none => (.BDF_DID_NOT_SPECIFY_FONTBOUNDINGBOX_CORRECTLY, out)
    | some (fx, fy, _, _) =>
      let cw := u16OfInt fx
      let ch := u16OfInt fy
      let bpl := u32OfInt (fx.tdiv 8 + (if fx.tmod 8 ≠ 0 then 1 else 0))
      let bpg := (u32OfInt fy * bpl) % 4294967296
      let total := (bpg * u32OfInt ((cpe : Int) - (cps : Int) + 1)) % 4294967296
      let fill :=
        if bpl = 1 then 0b0101010110101010 % 256
        else if bpl = 2 then 0b0101101001011010 % 256
        else 0b0101010101010101 % 256
      let tbl0 := List.replicate total fill
      let res := glyphLoop cps cpe ch bpl bpg cursor.length tbl0 cursor
      (res.1, { table := res.2, char_px_width := cw, char_px_height := ch,
                bytes_per_line := bpl, bytes_per_glyph := bpg })

/-! ### The TTF path: greyscale-to-bitmap quantizer and packer

Embedding of `create_pixel_font_from_ttf`.  The stb_truetype rasterizer is
an external capability: for each codepoint it yields placement offsets
`x_offset` / `y_offset` and the prefiltered greyscale buffer
`bitmap_memory` (a `u8` array, modelled as a total function from the byte
index to the sample value; the values of the real buffer are below 256 and
the `(u8)` cast of the quantizer is modelled by `% 256` regardless).
`bmp_width_in_px` and `bmp_height_in_px` are overwritten by the code with
`char_width_in_px` and `char_height_in_px` right after rasterization, so
they are no inputs here.  The destination `font_data` buffer is modelled as
a total byte map `Int → Nat` so that writes through an out-of-bounds
`bit_ptr` remain observable. -/

/-- Output of the external rasterizer for one codepoint. -/
structure Glyph_Render where
  x_offset : Int
  y_offset : Int
  mem : Nat → Nat

/-- The byte index of the `ACCESS(_x, _y, _sx, _sy)` macro into
`bitmap_memory`:
`bmp_width_in_px*(supersample*(_y-y_start)+_sy)+supersample*(_x-x_start)+_sx`
(non-negative at every use inside the loops, since `x ≥ x_start` and
`y ≥ y_start` there). -/
def accessIdx (bmpW ss : Nat) (x_start y_start x y : Int) (sub_x sub_y : Nat) : Nat :=
  ((bmpW : Int) * ((ss : Int) * (y - y_start) + (sub_y : Int)) +
    (ss : Int) * (x - x_start) + (sub_x : Int)).toNat

/-- The quantization of one target pixel in the packer's inner loop: the
supersample averaging loop with its hard-coded `hack_supersample = 1`
(`u32 hack_supersample = 1;` — the line using the real `supersample` is
commented out in the source), the `u8 pixel = avg / (hack_supersample *
hack_supersample)` cast and the threshold comparison
`pixel >= gray_threashold`. -/
def codeQuantBit (mem : Nat → Nat) (bmpW ss thr : Nat) (x_start y_start x y : Int) : Nat :=
  let hack_supersample : Nat := 1
  let avg := ((List.range hack_supersample).map fun sub_y =>
      ((List.range hack_supersample).map fun sub_x =>
        mem (accessIdx bmpW ss x_start y_start x y sub_x sub_y)).sum).sum
  let pixel := (avg / (hack_supersample * hack_supersample)) % 256
  if thr ≤ pixel then 1 else 0

/-- The packer's inner column loop, iterated `n` times starting at target
column `x`: quantize, OR the bit into the destination byte under `bit_ptr`
(a `u8` store, hence `% 256`), decrement the shift and roll over to the
next byte when the shift underflows to `-1`.  Returns the final `bit_ptr`,
shift and destination. -/
def packCols (mem : Nat → Nat) (bmpW ss thr : Nat) (x_start y_start : Int) (y : Int) :
    Nat → Int → Int → Int → (Int → Nat) → Int × Int × (Int → Nat)
  | 0, _x, ptr, shift, d => (ptr, shift, d)
  | n + 1, x, ptr, shift, d =>
    let b := codeQuantBit mem bmpW ss thr x_start y_start x y
    let d1 : Int → Nat := fun i => if i = ptr then (d ptr ||| b <<< shift.toNat) % 256 else d i
    let shift1 := shift - 1
    if shift1 = -1 then
      packCols mem bmpW ss thr x_start y_start y n (x + 1) (ptr + 1) 7 d1
    else
      packCols mem bmpW ss thr x_start y_start y n (x + 1) ptr shift1 d1

/-- The packer's row loop, iterated `n` times starting at target row `y`.
Each row runs the column loop from `max(0, x_start)` for
`min(x_end, cell_width) - max(0, x_start)` iterations (none when that is
not positive, in which case the C loop variable `x` stays at its lower
bound — `x_exit` reproduces the exit value of `x`), then realigns
`bit_ptr` for the next row with
`bit_ptr += (s32)((bytes_per_line*8-x-1) / 8) + 1;
 bit_ptr += (s32)(x_start/8.0);`
and resets the shift.  `(s32)(x_start/8.0)` truncates the exact double
quotient towards zero, which is `Int.tdiv x_start 8` for every `s32`. -/
def packRows (mem : Nat → Nat) (bmpW ss thr : Nat) (x_start x_end y_start : Int)
    (cellW bpl : Nat) :
    Nat → Int → Int → Int → (Int → Nat) → Int → Nat
  | 0, _y, _ptr, _shift, d => d
  | n + 1, y, ptr, shift, d =>
    let lower := max 0 x_start
    let upper := min x_end (cellW : Int)
    let cnt := (upper - lower).toNat
    let r := packCols mem bmpW ss thr x_start y_start y cnt lower ptr shift d
    let x_exit := lower + (cnt : Int)
    let ptr1 := r.1 + (((bpl : Int) * 8 - x_exit - 1).tdiv 8 + 1)
    let ptr2 := ptr1 + x_start.tdiv 8
    packRows mem bmpW ss thr x_start x_end y_start cellW bpl n (y + 1) ptr2
      (7 - x_start.tmod 8) r.2.2

/-- The packer for one glyph (lines following the rasterizer call in the
codepoint loop): place `bit_ptr` at
`slot base + y_start * bytes_per_line + x_start / 8` — before any clamping
— set the initial shift `7 - (x_start % 8)` (C signed `/` and `%`, i.e.
truncated), and run the row loop from `max(0, y_start)` for
`min(y_end, cell_height) - max(0, y_start)` iterations. -/
def packGlyph (mem : Nat → Nat) (bmpW ss thr : Nat) (x_start x_end y_start y_end : Int)
    (cellW cellH bpl : Nat) (base : Int) (d : Int → Nat) : Int → Nat :=
  let ptr0 := base + y_start * (bpl : Int) + x_start.tdiv 8
  let shift0 := 7 - x_start.tmod 8
  let ylower := max 0 y_start
  let yupper := min y_end (cellH : Int)
  packRows mem bmpW ss thr x_start x_end y_start cellW bpl
    ((yupper - ylower).toNat) ylower ptr0 shift0 d

/-- The codepoint loop of `create_pixel_font_from_ttf`, iterated `n` times
from codepoint `cp`.  Per codepoint: ink rectangle
`[x_offset, x_offset + char_width) × [ascend + y_offset, ascend + y_offset
+ char_height)` (the bitmap dimensions having been overwritten with the
full supersampled cell), cell dimensions `char_*_in_px / supersample`,
`bytes_per_line` recomputed from the `u16` field `char_px_width`, and the
slot base `(cp - cp_start) * char_px_height * bytes_per_line` in `u32`
arithmetic. -/
def ttfFill (charW charH ss : Nat) (ascend : Int) (thr : Nat) (cps : Nat)
    (glyphs : Nat → Glyph_Render) : Nat → Nat → (Int → Nat) → Int → Nat
  | 0, _cp, d => d
  | n + 1, cp, d =>
    let g := glyphs cp
    let y_start := ascend + g.y_offset
    let y_end := ascend + g.y_offset + (charH : Int)
    let x_start := g.x_offset
    let x_end := g.x_offset + (charW : Int)
    let cellW := (charW / ss) % 65536
    let cellH := (charH / ss) % 65536
    let bpl := cellW / 8 + (if cellW % 8 ≠ 0 then 1 else 0)
    let base := ((cp - cps) * cellH * bpl) % 4294967296
    let d1 := packGlyph g.mem charW ss thr x_start x_end y_start y_end
      (charW / ss) (charH / ss) bpl ((base : Nat) : Int) d
    ttfFill charW charH ss ascend thr cps glyphs n (cp + 1) d1

/-- The `Pixel_Font` produced by the TTF path, with the table as the byte
map of the `font_data` allocation. -/
structure Pixel_Font_T where
  table : Int → Nat
  char_px_width : Nat
  char_px_height : Nat
  bytes_per_line : Nat
  bytes_per_glyph : Nat

/-- Embedding of `create_pixel_font_from_ttf`.  The five fallible
collaborator steps — the `1<<25` ttf buffer `malloc`, `fopen`,
`stbtt_InitFont`, the one-char-bitmap `malloc` and the `font_data`
`malloc` — are modelled by success flags in source order; the scale/metric
computations of stb_truetype are inputs (`charW_scaled` is the already
supersampled `char_width_in_px`, `ascend` the rounded scaled ascent).
`char_height_in_px *= supersample` is a `u16` compound assignment, hence
`% 65536`.  The `out_font` fields are assigned only after the last
fallible step, immediately before the fill loop, exactly as in the code. -/
def create_pixel_font_from_ttf (ttf_alloc_ok file_ok init_ok bmp_alloc_ok table_alloc_ok : Bool)
    (char_height_in_px0 ss : Nat) (charW_scaled : Nat) (ascend : Int) (thr : Nat)
    (cps cpe : Nat) (glyphs : Nat → Glyph_Render) (out : Pixel_Font_T) :
    Pixel_Font_Baker_Error × Pixel_Font_T :=
  if ttf_alloc_ok = false then (.MALLOC_FAILED, out)
  else if file_ok = false then (.FONT_FILE_COULD_NOT_BE_OPENED, out)
  else if init_ok = false then (.STB_TRUETYPE_FAILED, out)
  else
    let charH := (char_height_in_px0 * ss) % 65536
    if bmp_alloc_ok = false then (.MALLOC_FAILED, out)
    else if table_alloc_ok = false then (.MALLOC_FAILED, out)
    else
      let cellW := charW_scaled / ss
      let cellH := charH / ss
      let bpl := cellW / 8 + (if cellW % 8 ≠ 0 then 1 else 0)
      let tbl := ttfFill charW_scaled charH ss ascend thr cps glyphs (cpe + 1 - cps) cps
        (fun _ => 0)
      (.SUCCESS, { table := tbl, char_px_width := cellW % 65536,
                   char_px_height := cellH % 65536, bytes_per_line := bpl,
                   bytes_per_glyph := (bpl * cellH) % 4294967296 })

/-! ### The quantization the specification describes (for comparison)

Claim C2 describes the quantizer as averaging the `supersample ×
supersample` sub-pixel samples whenever the supersample factor is greater
than one.  The following definition follows the spec's words (it is not an
embedding of the code) and is compared against `codeQuantBit` in the
theorems below. -/

/-- Follows the spec's words for claim C2: "averaging the supersample x
supersample sub-pixel coverage samples for that pixel and comparing the
average against the threshold; when the factor is 1 the single coverage
sample is compared directly". -/
def specAvgQuantBit (mem : Nat → Nat) (bmpW ss thr : Nat) (x_start y_start x y : Int) : Nat :=
  let avg := (((List.range ss).map fun sub_y =>
      ((List.range ss).map fun sub_x =>
        mem (accessIdx bmpW ss x_start y_start x y sub_x sub_y)).sum).sum) / (ss * ss)
  if thr ≤ avg then 1 else 0

/-! ### Concrete instances used by the theorems below -/

/-- A caller's zero-initialized output struct (BDF path). -/
def emptyFont : Pixel_Font :=
  { table := [], char_px_width := 0, char_px_height := 0,
    bytes_per_line := 0, bytes_per_glyph := 0 }

/-- A caller's zero-initialized output struct (TTF path). -/
def emptyFontT : Pixel_Font_T :=
  { table := fun _ => 0, char_px_width := 0, char_px_height := 0,
    bytes_per_line := 0, bytes_per_glyph := 0 }

/-- BDF text up to and including the `BITMAP` line of a single glyph record
for codepoint 65, with bounding box 8 x 8. -/
def bdf8Header : List Char := "FONTBOUNDINGBOX 8 8 0 0\nENCODING 65\nBITMAP\n".toList

/-- The uppercase hexadecimal digit for a nibble value, as BDF files
write them. -/
def hexDigitChar (n : Nat) : Char :=
  match n with
  | 0 => '0' | 1 => '1' | 2 => '2' | 3 => '3'
  | 4 => '4' | 5 => '5' | 6 => '6' | 7 => '7'
  | 8 => '8' | 9 => '9' | 10 => 'A' | 11 => 'B'
  | 12 => 'C' | 13 => 'D' | 14 => 'E' | _ => 'F'

/-- BDF text of a list of bitmap rows given as nibble pairs: one byte (two
uppercase hex digits) plus a newline per row, as for a width-8 bounding
box. -/
def encodeRows (rows : List (Nat × Nat)) : List Char :=
  (rows.map fun p => [hexDigitChar p.1, hexDigitChar p.2, '\n']).flatten

/-- Well-formed single-glyph BDF file for codepoint 65: header, bitmap
rows, then the closing keywords a BDF file carries after the rows. -/
def mkBdf8 (rows : List (Nat × Nat)) : List Char :=
  bdf8Header ++ encodeRows rows ++ "ENDCHAR\nENDFONT\n".toList

/-- Single-glyph BDF input whose bytes end with `tail` directly after the
`BITMAP` line. -/
def mkBdfTail (tail : List Char) : List Char := bdf8Header ++ tail

/-- In-place byte writes through the walking `table_entry` pointer: write
the listed values at consecutive indices. -/
def writeBytes (tbl : List Nat) (idx : Nat) : List Nat → List Nat
  | [] => tbl
  | v :: vs => writeBytes (tbl.set idx v) (idx + 1) vs

/-- Eight rows of `"FF"` as nibble pairs, the concrete scenario of claim
C3. -/
def ffRows : List (Nat × Nat) :=
  [(15, 15), (15, 15), (15, 15), (15, 15), (15, 15), (15, 15), (15, 15), (15, 15)]

/-- BDF input declaring a bounding box and no glyphs (claim C5). -/
def c5input : List Char := "FONTBOUNDINGBOX 8 8 0 0\n".toList

/-- BDF input with no `FONTBOUNDINGBOX` line at all (claim C7). -/
def c7input : List Char := "STARTFONT 2.1\nNOTHING HERE\n".toList

/-- BDF input declaring a 16 x 4 bounding box and no glyphs (claim C4). -/
def c4input : List Char := "FONTBOUNDINGBOX 16 4 0 0\n".toList

/-- A rasterized glyph with no ink at all. -/
def glyphZero : Glyph_Render := { x_offset := 0, y_offset := 0, mem := fun _ => 0 }

/-- A fully inked glyph whose ink rectangle starts one row above the cell
(`y_start = ascend + y_offset = -1` for `ascend = 0`). -/
def glyphInkAbove : Glyph_Render := { x_offset := 0, y_offset := -1, mem := fun _ => 255 }

/-- Rasterizer for the bake of claim C1's failing input: codepoint 66 inked
above its cell, codepoint 65 blank. -/
def c1glyphs : Nat → Glyph_Render := fun cp => if cp = 66 then glyphInkAbove else glyphZero

/-- Like `glyphInkAbove` with coverage 200 (for a threshold of 100). -/
def glyphInkAbove200 : Glyph_Render := { x_offset := 0, y_offset := -1, mem := fun _ => 200 }

/-- Rasterizer for claim C8's counterexample bake: codepoint 65's coverage
is everywhere 0, strictly below the threshold; codepoint 66 spills. -/
def c8glyphs : Nat → Glyph_Render := fun cp => if cp = 66 then glyphInkAbove200 else glyphZero

/-- Supersampled coverage buffer whose sample at index 0 is 0 and 255
everywhere else (claim C2's counterexample). -/
def c2mem : Nat → Nat := fun i => if i = 0 then 0 else 255

/-- Rasterizer delivering `c2mem` with zero offsets. -/
def c2glyphs : Nat → Glyph_Render := fun _ => { x_offset := 0, y_offset := 0, mem := c2mem }

/-! ## Lemmas about the quantizer and packer -/

/-- Distribution of the `u8` store truncation over bitwise or, for byte
values already below 256. -/
theorem lor_mod_256 (a v : Nat) (h : a < 256) : (a ||| v) % 256 = a ||| (v % 256) := by
  apply Nat.eq_of_testBit_eq
  intro i
  have h256 : (256 : Nat) = 2 ^ 8 := by norm_num
  rw [h256, Nat.testBit_mod_two_pow, Nat.testBit_lor, Nat.testBit_lor, Nat.testBit_mod_two_pow]
  by_cases hi : i < 8
  · simp [hi]
  · have ha : a < 2 ^ i :=
      lt_of_lt_of_le (h256 ▸ h) (Nat.pow_le_pow_right (by norm_num) (by omega))
    simp [hi, Nat.testBit_lt_two_pow ha]

/-- The bit cursor (pointer and shift) of the column loop does not depend
on the destination contents. -/
theorem packCols_cursor_indep (mem : Nat → Nat) (bmpW ss thr : Nat) (xs ys y : Int) :
    ∀ (n : Nat) (x ptr sh : Int) (d d' : Int → Nat),
      (packCols mem bmpW ss thr xs ys y n x ptr sh d).1 =
          (packCols mem bmpW ss thr xs ys y n x ptr sh d').1 ∧
        (packCols mem bmpW ss thr xs ys y n x ptr sh d).2.1 =
          (packCols mem bmpW ss thr xs ys y n x ptr sh d').2.1 := by
  intro n
  induction n with
  | zero => intro x ptr sh d d'; exact ⟨rfl, rfl⟩
  | succ k ih =>
    intro x ptr sh d d'
    simp only [packCols]
    split
    · exact ih (x + 1) (ptr + 1) 7 _ _
    · exact ih (x + 1) ptr (sh - 1) _ _

/-- The column loop keeps every destination byte below 256. -/
theorem packCols_lt (mem : Nat → Nat) (bmpW ss thr : Nat) (xs ys y : Int) :
    ∀ (n : Nat) (x ptr sh : Int) (d : Int → Nat), (∀ i, d i < 256) →
      ∀ i, (packCols mem bmpW ss thr xs ys y n x ptr sh d).2.2 i < 256 := by
  intro n
  induction n with
  | zero => intro x ptr sh d hd i; exact hd i
  | succ k ih =>
    intro x ptr sh d hd i
    have hd1 : ∀ j, (fun j => if j = ptr then
        (d ptr ||| codeQuantBit mem bmpW ss thr xs ys x y <<< sh.toNat) % 256 else d j) j < 256 := by
      intro j
      by_cases hj : j = ptr
      · simp only [hj, if_pos]
        exact Nat.mod_lt _ (by norm_num)
      · simp only [if_neg hj]
        exact hd j
    simp only [packCols]
    split
    · exact ih (x + 1) (ptr + 1) 7 _ hd1 i
    · exact ih (x + 1) ptr (sh - 1) _ hd1 i

/-- The column loop only ORs data into the destination: its effect on a
sub-256 destination is the bytewise or with its effect on the all-zero
destination. -/
theorem packCols_lor (mem : Nat → Nat) (bmpW ss thr : Nat) (xs ys y : Int) :
    ∀ (n : Nat) (x ptr sh : Int) (d : Int → Nat), (∀ i, d i < 256) →
      ∀ i, (packCols mem bmpW ss thr xs ys y n x ptr sh d).2.2 i =
        d i ||| (packCols mem bmpW ss thr xs ys y n x ptr sh (fun _ => 0)).2.2 i := by
  intro n
  induction n with
  | zero => intro x ptr sh d hd i; simp [packCols]
  | succ k ih =>
    intro x ptr sh d hd i
    have hd1 : ∀ (dd : Int → Nat), (∀ i, dd i < 256) → ∀ j, (fun j => if j = ptr then
        (dd ptr ||| codeQuantBit mem bmpW ss thr xs ys x y <<< sh.toNat) % 256 else dd j) j < 256 := by
      intro dd hdd j
      by_cases hj : j = ptr
      · simp only [hj, if_pos]
        exact Nat.mod_lt _ (by norm_num)
      · simp only [if_neg hj]
        exact hdd j
    simp only [packCols]
    have hz : ∀ i, (fun _ : Int => (0 : Nat)) i < 256 := by intro i; norm_num
    split
    all_goals
      rw [ih (x + 1) _ _ _ (hd1 d hd) i, ih (x + 1) _ _ _ (hd1 (fun _ => 0) hz) i]
      by_cases hj : i = ptr
      · simp [hj, lor_mod_256 _ _ (hd ptr), Nat.lor_assoc]
      · simp [hj]

/-- The row loop's bit cursor after the column loop does not depend on the
destination contents, so neither does the realigned next-row cursor. -/
theorem packRows_lor (mem : Nat → Nat) (bmpW ss thr : Nat) (xs xe ys : Int) (cw bpl : Nat) :
    ∀ (n : Nat) (y ptr sh : Int) (d : Int → Nat), (∀ i, d i < 256) →
      ∀ i, packRows mem bmpW ss thr xs xe ys cw bpl n y ptr sh d i =
        d i ||| packRows mem bmpW ss thr xs xe ys cw bpl n y ptr sh (fun _ => 0) i := by
  intro n
  induction n with
  | zero => intro y ptr sh d hd i; simp [packRows]
  | succ k ih =>
    intro y ptr sh d hd i
    simp only [packRows]
    rw [(packCols_cursor_indep mem bmpW ss thr xs ys y _ _ ptr sh d (fun _ => 0)).1]
    rw [ih _ _ _ _ (packCols_lt mem bmpW ss thr xs ys y _ _ ptr sh d hd) i]
    rw [ih _ _ _ _ (packCols_lt mem bmpW ss thr xs ys y _ _ ptr sh (fun _ => 0)
      (by intro j; norm_num)) i]
    rw [packCols_lor mem bmpW ss thr xs ys y _ _ ptr sh d hd i, Nat.lor_assoc]

/-- The row loop keeps every destination byte below 256. -/
theorem packRows_lt (mem : Nat → Nat) (bmpW ss thr : Nat) (xs xe ys : Int) (cw bpl : Nat) :
    ∀ (n : Nat) (y ptr sh : Int) (d : Int → Nat), (∀ i, d i < 256) →
      ∀ i, packRows mem bmpW ss thr xs xe ys cw bpl n y ptr sh d i < 256 := by
  intro n
  induction n with
  | zero => intro y ptr sh d hd i; exact hd i
  | succ k ih =>
    intro y ptr sh d hd i
    simp only [packRows]
    exact ih _ _ _ _ (packCols_lt mem bmpW ss thr xs ys y _ _ ptr sh d hd) i

/-- `packGlyph` on a sub-256 destination is the bytewise or of the
destination with the glyph's own pack on an all-zero destination. -/
theorem packGlyph_lor (mem : Nat → Nat) (bmpW ss thr : Nat) (xs xe ys ye : Int)
    (cw chh bpl : Nat) (base : Int) (d : Int → Nat) (hd : ∀ i, d i < 256) (i : Int) :
    packGlyph mem bmpW ss thr xs xe ys ye cw chh bpl base d i =
      d i ||| packGlyph mem bmpW ss thr xs xe ys ye cw chh bpl base (fun _ => 0) i := by
  simp only [packGlyph]
  exact packRows_lor mem bmpW ss thr xs xe ys cw bpl _ _ _ _ d hd i

/-- `packGlyph` keeps every destination byte below 256. -/
theorem packGlyph_lt (mem : Nat → Nat) (bmpW ss thr : Nat) (xs xe ys ye : Int)
    (cw chh bpl : Nat) (base : Int) (d : Int → Nat) (hd : ∀ i, d i < 256) (i : Int) :
    packGlyph mem bmpW ss thr xs xe ys ye cw chh bpl base d i < 256 := by
  simp only [packGlyph]
  exact packRows_lt mem bmpW ss thr xs xe ys cw bpl _ _ _ _ d hd i

/-- Claim C9: the quantizer/packer is idempotent — running the pack
routine a second time over the bytes produced by a first run on a freshly
zeroed destination leaves every byte unchanged, for every coverage buffer,
supersample factor, threshold, placement rectangle, cell size and slot
base, because the routine only ORs bits whose values do not depend on the
destination. -/
theorem pack_idempotent (mem : Nat → Nat) (bmpW ss thr : Nat) (xs xe ys ye : Int)
    (cw chh bpl : Nat) (base : Int) (i : Int) :
    packGlyph mem bmpW ss thr xs xe ys ye cw chh bpl base
        (packGlyph mem bmpW ss thr xs xe ys ye cw chh bpl base (fun _ => 0)) i =
      packGlyph mem bmpW ss thr xs xe ys ye cw chh bpl base (fun _ => 0) i := by
  rw [packGlyph_lor mem bmpW ss thr xs xe ys ye cw chh bpl base _
    (fun j => packGlyph_lt mem bmpW ss thr xs xe ys ye cw chh bpl base _
      (by intro j; norm_num) j) i]
  simp

/-- A coverage buffer that stays strictly below the threshold quantizes
every pixel to a zero bit. -/
theorem codeQuantBit_eq_zero (mem : Nat → Nat) (bmpW ss thr : Nat) (xs ys x y : Int)
    (h : ∀ j, mem j % 256 < thr) : codeQuantBit mem bmpW ss thr xs ys x y = 0 := by
  simp only [codeQuantBit, List.range_succ, List.range_zero, List.nil_append, List.map_cons,
    List.map_nil, List.sum_cons, List.sum_nil, Nat.add_zero, Nat.mul_one, Nat.div_one]
  rw [if_neg]
  exact Nat.not_le_of_lt (h _)

/-- The column loop leaves an all-zero destination all-zero when every
quantized bit is zero. -/
theorem packCols_zero (mem : Nat → Nat) (bmpW ss thr : Nat) (xs ys y : Int)
    (hq : ∀ x y, codeQuantBit mem bmpW ss thr xs ys x y = 0) :
    ∀ (n : Nat) (x ptr sh : Int) (d : Int → Nat), (∀ i, d i = 0) →
      ∀ i, (packCols mem bmpW ss thr xs ys y n x ptr sh d).2.2 i = 0 := by
  intro n
  induction n with
  | zero => intro x ptr sh d hd i; exact hd i
  | succ k ih =>
    intro x ptr sh d hd i
    have hd1 : ∀ j, (fun j => if j = ptr then
        (d ptr ||| codeQuantBit mem bmpW ss thr xs ys x y <<< sh.toNat) % 256 else d j) j = 0 := by
      intro j
      by_cases hj : j = ptr
      · simp [hj, hd ptr, hq x y]
      · simp only [if_neg hj]
        exact hd j
    simp only [packCols]
    split
    · exact ih (x + 1) (ptr + 1) 7 _ hd1 i
    · exact ih (x + 1) ptr (sh - 1) _ hd1 i

/-- The row loop leaves an all-zero destination all-zero when every
quantized bit is zero. -/
theorem packRows_zero (mem : Nat → Nat) (bmpW ss thr : Nat) (xs xe ys : Int) (cw bpl : Nat)
    (hq : ∀ x y, codeQuantBit mem bmpW ss thr xs ys x y = 0) :
    ∀ (n : Nat) (y ptr sh : Int) (d : Int → Nat), (∀ i, d i = 0) →
      ∀ i, packRows mem bmpW ss thr xs xe ys cw bpl n y ptr sh d i = 0 := by
  intro n
  induction n with
  | zero => intro y ptr sh d hd i; exact hd i
  | succ k ih =>
    intro y ptr sh d hd i
    simp only [packRows]
    exact ih _ _ _ _ (packCols_zero mem bmpW ss thr xs ys y hq _ _ ptr sh d hd) i

/-- `packGlyph` of a glyph with all-zero quantized bits leaves an all-zero
destination all-zero. -/
theorem packGlyph_zero (mem : Nat → Nat) (bmpW ss thr : Nat) (xs xe ys ye : Int)
    (cw chh bpl : Nat) (base : Int) (d : Int → Nat) (hd : ∀ i, d i = 0)
    (hq : ∀ x y, codeQuantBit mem bmpW ss thr xs ys x y = 0) (i : Int) :
    packGlyph mem bmpW ss thr xs xe ys ye cw chh bpl base d i = 0 := by
  simp only [packGlyph]
  exact packRows_zero mem bmpW ss thr xs xe ys cw bpl hq _ _ _ _ d hd i

/-! ## Theorems for the TTF-path claims -/

/-- Claim C1 (code evaluated at the failing input): in a bake with cell
8 x 2 pixels (one byte per line, two bytes per glyph) of codepoints 65 and
66, where codepoint 66's ink rectangle starts one row above the cell
(`y_start = -1`) and its coverage is everywhere 255 (threshold 128) while
codepoint 65 is blank, the packer writes byte 1 of the table — the second
byte of codepoint 65's slot `[0, 2)`, outside codepoint 66's own slot
`[2, 4)` — to `0xFF`, while codepoint 66's own slot stays zero.  The bit
writes are thus not clipped at the cell edge: `bit_ptr` is pre-offset by
`y_start * bytes_per_line` before the row clamp, so the clamped rows land
one row before the slot. -/
theorem ttf_clip_out_of_slot_write :
    ((create_pixel_font_from_ttf true true true true true 2 1 8 0 128 65 66 c1glyphs
        emptyFontT).2).table 1 = 255 ∧
    ((create_pixel_font_from_ttf true true true true true 2 1 8 0 128 65 66 c1glyphs
        emptyFontT).2).table 2 = 0 ∧
    ((create_pixel_font_from_ttf true true true true true 2 1 8 0 128 65 66 c1glyphs
        emptyFontT).2).table 3 = 0 := by
  refine ⟨?_, ?_, ?_⟩ <;> rfl

/-- Claim C2 (counterexample): with supersample factor 2, threshold 128
and the coverage buffer `c2mem` (sample 0 is 0, all other samples 255),
the averaging quantization described by the spec yields bit 1 for target
pixel (0, 0), but the baked table's first byte is `0x7F`, whose
most-significant bit — the bit of target pixel (0, 0) — is clear: the
written bit is not obtained by averaging the 2 x 2 sub-pixel samples. -/
theorem quant_no_averaging_cex :
    ((create_pixel_font_from_ttf true true true true true 1 2 16 0 128 65 65 c2glyphs
        emptyFontT).2).table 0 = 127 ∧
    specAvgQuantBit c2mem 16 2 128 0 0 0 0 = 1 ∧
    Nat.testBit 127 7 = false := by
  refine ⟨?_, ?_, ?_⟩ <;> rfl

/-- Claim C2 (amended): for every supersample factor the quantizer reads
exactly one sub-pixel sample — the top-left sample of the supersample
block, at the `ACCESS` index with `sub_x = sub_y = 0` — and compares it
directly against the threshold; the averaging loop is disabled by the
hard-coded `hack_supersample = 1`, so no averaging happens even when the
supersample factor is greater than 1 (and for factor 1 this is the direct
comparison the claim describes). -/
theorem quant_single_sample (mem : Nat → Nat) (bmpW ss thr : Nat) (xs ys x y : Int) :
    codeQuantBit mem bmpW ss thr xs ys x y =
      if thr ≤ mem (accessIdx bmpW ss xs ys x y 0 0) % 256 then 1 else 0 := by
  simp only [codeQuantBit, List.range_succ, List.range_zero, List.nil_append, List.map_cons,
    List.map_nil, List.sum_cons, List.sum_nil, Nat.add_zero, Nat.mul_one, Nat.div_one]

/-- Claim C8 (counterexample): in a bake of codepoints 65 and 66 with cell
7 x 2 and threshold 100, codepoint 65's coverage samples are all 0 —
strictly below the threshold — yet byte 1 of its slot `[0, 2)` ends up
`0xFE`, because codepoint 66 (ink starting one row above its cell) writes
into it.  The below-threshold codepoint's slot is not all-zero. -/
theorem ttf_below_threshold_slot_nonzero_cex :
    glyphZero.mem = (fun _ => 0) ∧
    ((create_pixel_font_from_ttf true true true true true 2 1 7 0 100 65 66 c8glyphs
        emptyFontT).2).table 1 = 254 := by
  exact ⟨rfl, rfl⟩

/-- Claim C8 (amended): for a bake whose codepoint range contains only the
codepoint in question — so that no other glyph's writes can reach its slot
— a codepoint whose coverage samples are all strictly below the threshold
produces an all-zero table: the table is zero-initialized and the packer
only ORs in bits of pixels that reach the threshold. -/
theorem ttf_below_threshold_single_cp_zero (h0 ss charW : Nat) (ascend : Int) (thr cp : Nat)
    (g : Glyph_Render) (out : Pixel_Font_T) (hthr : ∀ j, g.mem j % 256 < thr) (j : Int) :
    ((create_pixel_font_from_ttf true true true true true h0 ss charW ascend thr
        cp cp (fun _ => g) out).2).table j = 0 := by
  simp only [create_pixel_font_from_ttf, Bool.true_eq_false, if_false, Nat.add_sub_cancel_left]
  simp only [ttfFill]
  exact packGlyph_zero _ _ _ _ _ _ _ _ _ _ _ _ _ (fun _ => rfl)
    (fun x y => codeQuantBit_eq_zero _ _ _ _ _ _ x y hthr) j

/-- Claim C8 (witness for the amended theorem): the spec's concrete
scenario — height 16, threshold 128, supersample 1, a codepoint with
all-zero coverage baked alone — yields a zero byte. -/
theorem ttf_below_threshold_single_cp_zero_witness :
    (0 : Nat) % 256 < 128 ∧
    ((create_pixel_font_from_ttf true true true true true 16 1 16 0 128 65 65
        (fun _ => glyphZero) emptyFontT).2).table 3 = 0 :=
  ⟨by norm_num, ttf_below_threshold_single_cp_zero 16 1 16 0 128 65 glyphZero emptyFontT
    (fun j => by norm_num [glyphZero]) 3⟩

/-- Claim C10: every error return of the outline-font path — the `1<<25`
buffer allocation failure, the unopenable font file, the font engine
(`stbtt_InitFont`) failure and the two later allocation failures — happens
before any field of the caller's output struct is assigned, so on every
non-`SUCCESS` result the output struct is returned exactly as passed in. -/
theorem ttf_error_leaves_out_untouched (f1 f2 f3 f4 f5 : Bool) (h0 ss charW : Nat)
    (ascend : Int) (thr cps cpe : Nat) (glyphs : Nat → Glyph_Render) (out : Pixel_Font_T)
    (herr : (create_pixel_font_from_ttf f1 f2 f3 f4 f5 h0 ss charW ascend thr cps cpe
      glyphs out).1 ≠ .SUCCESS) :
    (create_pixel_font_from_ttf f1 f2 f3 f4 f5 h0 ss charW ascend thr cps cpe
      glyphs out).2 = out := by
  cases f1 <;> cases f2 <;> cases f3 <;> cases f4 <;> cases f5 <;>
    first
      | rfl
      | exact absurd rfl herr

/-- Claim C10 (witness): an unopenable font file leaves the caller's
struct untouched. -/
theorem ttf_error_leaves_out_untouched_witness :
    (create_pixel_font_from_ttf true false true true true 16 1 8 0 128 65 65
      (fun _ => glyphZero) emptyFontT).2 = emptyFontT :=
  ttf_error_leaves_out_untouched true false true true true 16 1 8 0 128 65 65
    (fun _ => glyphZero) emptyFontT (by decide)

/-! ## Lemmas about the BDF scanner and builder -/

/-- Eating whitespace never lengthens the cursor. -/
theorem eat_whitespace_length_le (l : List Char) : (eat_whitespace l).length ≤ l.length := by
  induction l with
  | nil => simp [eat_whitespace]
  | cons c rest ih =>
    simp only [eat_whitespace]
    split
    · exact le_trans ih (by simp)
    · simp

/-- The uppercase hex digit of a nibble is a hex digit with that value and
is neither `sscanf` whitespace nor scanner whitespace. -/
theorem hexDigitChar_spec (n : Nat) (h : n < 16) :
    isHexDigitChar (hexDigitChar n) = true ∧ hexVal (hexDigitChar n) = n ∧
      isCWsChar (hexDigitChar n) = false ∧ isWsChar (hexDigitChar n) = false := by
  interval_cases n <;> exact (by decide)

/-- Each encoded row contributes three bytes: two hex digits and a
newline. -/
theorem encodeRows_length (rows : List (Nat × Nat)) :
    (encodeRows rows).length = 3 * rows.length := by
  induction rows with
  | nil => rfl
  | cons p rs ih =>
    have hc : encodeRows (p :: rs) =
        hexDigitChar p.1 :: hexDigitChar p.2 :: '\n' :: encodeRows rs := by
      simp [encodeRows]
    rw [hc]
    simp only [List.length_cons, ih]
    omega

/-- Encoded rows followed by a whitespace-free tail start with a non-blank
byte, so `eat_whitespace` leaves them alone. -/
theorem eat_whitespace_encodeRows (rows : List (Nat × Nat)) (tailC : List Char)
    (h : ∀ p ∈ rows, p.1 < 16 ∧ p.2 < 16) (htail : eat_whitespace tailC = tailC) :
    eat_whitespace (encodeRows rows ++ tailC) = encodeRows rows ++ tailC := by
  cases rows with
  | nil => simpa [encodeRows] using htail
  | cons p rs =>
    have hws := (hexDigitChar_spec p.1 (h p (by simp)).1).2.2.2
    simp [encodeRows, eat_whitespace, hws]

/-- Running the row reader over well-formed encoded rows parses every row
and writes the row bytes at consecutive table indices, leaving the cursor
at the tail. -/
theorem parseRows_encodeRows :
    ∀ (rows : List (Nat × Nat)) (tbl : List Nat) (idx : Nat) (tailC : List Char),
      (∀ p ∈ rows, p.1 < 16 ∧ p.2 < 16) → eat_whitespace tailC = tailC →
      parseRows rows.length 1 tbl idx (encodeRows rows ++ tailC) =
        (true, writeBytes tbl idx (rows.map fun p => p.1 * 16 + p.2), tailC) := by
  intro rows
  induction rows with
  | nil =>
    intro tbl idx tailC _ htail
    simp [parseRows, encodeRows, writeBytes]
  | cons p rs ih =>
    intro tbl idx tailC hp htail
    have h1 := hexDigitChar_spec p.1 (hp p (by simp)).1
    have h2 := hexDigitChar_spec p.2 (hp p (by simp)).2
    have hrest : ∀ q ∈ rs, q.1 < 16 ∧ q.2 < 16 := fun q hq => hp q (by simp [hq])
    have henc : encodeRows (p :: rs) ++ tailC =
        hexDigitChar p.1 :: hexDigitChar p.2 :: '\n' :: (encodeRows rs ++ tailC) := by
      simp [encodeRows]
    rw [henc]
    have hhex : parse2Hex (hexDigitChar p.1 :: hexDigitChar p.2 :: '\n' ::
        (encodeRows rs ++ tailC)) = some (p.1 * 16 + p.2) := by
      simp [parse2Hex, dropCWs, h1.2.2.1, h1.1, h2.1, h1.2.1, h2.2.1]
    have hmod : (p.1 * 16 + p.2) % 256 = p.1 * 16 + p.2 := by
      have := (hp p (by simp)).1
      have := (hp p (by simp)).2
      omega
    simp only [List.length_cons, parseRows, parseCols, hhex, List.drop_succ_cons,
      List.drop_zero, hmod]
    have hws : eat_whitespace ('\n' :: (encodeRows rs ++ tailC)) =
        encodeRows rs ++ tailC := by
      simp [eat_whitespace]
      exact eat_whitespace_encodeRows rs tailC hrest htail
    rw [hws, ih _ _ _ hrest htail]
    simp [writeBytes]

/-- Writing past a kept head byte. -/
theorem writeBytes_cons_succ :
    ∀ (vs : List Nat) (t : Nat) (ts : List Nat) (i : Nat),
      writeBytes (t :: ts) (i + 1) vs = t :: writeBytes ts i vs := by
  intro vs
  induction vs with
  | nil => intros; rfl
  | cons v vs ih =>
    intro t ts i
    simp only [writeBytes, List.set_cons_succ]
    exact ih t (ts.set i v) (i + 1)

/-- Writing as many bytes as the table holds, starting at index 0,
replaces the whole table. -/
theorem writeBytes_zero_full : ∀ (vs tbl : List Nat), vs.length = tbl.length →
    writeBytes tbl 0 vs = vs := by
  intro vs
  induction vs with
  | nil =>
    intro tbl h
    cases tbl with
    | nil => rfl
    | cons t ts => simp at h
  | cons v vs ih =>
    intro tbl h
    cases tbl with
    | nil => simp at h
    | cons t ts =>
      simp only [writeBytes, List.set_cons_zero, writeBytes_cons_succ]
      simp only [List.length_cons] at h
      rw [ih ts (by omega)]

/-- Symbolic evaluation of the builder over `bdf8Header` with an arbitrary
tail: the bounding box parses as 8 x 8, one byte per line and eight bytes
per glyph are computed, the eight-byte table is allocated with the 0xAA
fill, and the glyph loop starts on the cursor right after the
`FONTBOUNDINGBOX` token. -/
theorem bdf8_expand (rows : List Char) (out : Pixel_Font) :
    create_pixel_font_from_bdf (mkBdfTail rows) 65 65 out =
      (let res := glyphLoop 65 65 8 1 8 (27 + rows.length)
        (List.replicate 8 170) ("8 8 0 0\nENCODING 65\nBITMAP\n".toList ++ rows)
       (res.1, { table := res.2, char_px_width := 8, char_px_height := 8,
                 bytes_per_line := 1, bytes_per_glyph := 8 })) := by
  have h1 : seekTok fbbTok (mkBdfTail rows) =
      "8 8 0 0\nENCODING 65\nBITMAP\n".toList ++ rows := rfl
  have hscan : scan4Ints ("8 8 0 0\nENCODING 65\nBITMAP\n".toList ++ rows) =
      some (8, 8, 0, 0) := rfl
  have e1 : u16OfInt 8 = 8 := rfl
  have e2 : u32OfInt (Int.tdiv 8 8 + if Int.tmod 8 8 ≠ 0 then 1 else 0) = 1 := rfl
  have e3 : u32OfInt 8 = 8 := rfl
  have e4 : u32OfInt (((65 : Nat) : Int) - ((65 : Nat) : Int) + 1) = 1 := rfl
  have hl : ("8 8 0 0\nENCODING 65\nBITMAP\n".toList).length = 27 := rfl
  simp only [create_pixel_font_from_bdf, h1, hscan, List.length_append, e1, e2, e3, e4, hl]
  norm_num

set_option maxHeartbeats 2000000 in
/-- Symbolic evaluation of one iteration of the glyph loop on the cursor
left by `bdf8_expand`: the `"ENCODING "` seek finds codepoint 65, the
codepoint parses and is in range, the `"BITMAP"` seek leaves the cursor at
the bitmap rows, and the iteration ends at the remaining-bytes check. -/
theorem glyphLoop_bdf8_step (rows : List Char) (tbl : List Nat) :
    glyphLoop 65 65 8 1 8 (27 + rows.length) tbl
        ("8 8 0 0\nENCODING 65\nBITMAP\n".toList ++ rows) =
      (let c2 := eat_whitespace rows
       if 24 ≥ c2.length then (.BDF_ERROR_PARSING_CHARACTER_BYTES, tbl)
       else
         match parseRows 8 1 tbl 0 c2 with
         | (false, tbl1, _) => (.BDF_ERROR_PARSING_CHARACTER_BYTES, tbl1)
         | (true, tbl1, c3) => glyphLoop 65 65 8 1 8 (26 + rows.length) tbl1 c3) := by
  rw [Nat.add_comm 27 rows.length, Nat.add_comm 26 rows.length]
  exact rfl

/-- After a completed glyph, the loop resumes on the
`ENDCHAR`/`ENDFONT` trailer, finds no further `"ENCODING "` line and stops
successfully without touching the table (for any remaining fuel, since the
fuel-exhausted and the input-exhausted answers coincide here). -/
theorem glyphLoop_trailer (fuel : Nat) (tbl : List Nat) :
    glyphLoop 65 65 8 1 8 fuel tbl ("ENDCHAR\nENDFONT\n".toList) = (.SUCCESS, tbl) := by
  cases fuel with
  | zero => rfl
  | succ k => rfl

/-- Conversion of `u32OfInt` on a natural number. -/
theorem u32OfInt_natCast (n : Nat) : u32OfInt (n : Int) = n % 4294967296 := by
  unfold u32OfInt
  omega

/-- The column reader only overwrites table entries in place. -/
theorem parseCols_table_length : ∀ (n : Nat) (tbl : List Nat) (idx : Nat) (l : List Char),
    ((parseCols n tbl idx l).2.1).length = tbl.length := by
  intro n
  induction n with
  | zero => intro tbl idx l; rfl
  | succ k ih =>
    intro tbl idx l
    simp only [parseCols]
    split
    · rfl
    · rw [ih]
      simp

/-- The row reader only overwrites table entries in place. -/
theorem parseRows_table_length : ∀ (r : Nat) (bpl : Nat) (tbl : List Nat) (idx : Nat)
    (l : List Char), ((parseRows r bpl tbl idx l).2.1).length = tbl.length := by
  intro r
  induction r with
  | zero => intro bpl tbl idx l; rfl
  | succ k ih =>
    intro bpl tbl idx l
    simp only [parseRows]
    split
    · rename_i tbl1 l1 heq
      have := parseCols_table_length bpl tbl idx l
      rw [heq] at this
      simpa using this
    · rename_i tbl1 idx1 l1 heq
      have := parseCols_table_length bpl tbl idx l
      rw [heq] at this
      simp only at this
      rw [ih, this]

/-- The glyph loop only overwrites table entries in place: the allocated
table size never changes. -/
theorem glyphLoop_table_length (cps cpe ch bpl bpg : Nat) :
    ∀ (fuel : Nat) (tbl : List Nat) (l : List Char),
      ((glyphLoop cps cpe ch bpl bpg fuel tbl l).2).length = tbl.length := by
  intro fuel
  induction fuel with
  | zero => intro tbl l; cases l <;> rfl
  | succ k ih =>
    intro tbl l
    cases l with
    | nil => rfl
    | cons c0 rest =>
      simp only [glyphLoop]
      split
      · rfl
      · split
        · rfl
        · split
          · exact ih tbl _
          · split
            · rfl
            · split
              · rename_i tbl1 c3 heq
                have h3 := congrArg (fun p => (p.2.1).length) heq
                simp only at h3
                rw [parseRows_table_length] at h3
                simpa using h3.symm
              · rename_i tbl1 c3 heq
                have h3 := congrArg (fun p => (p.2.1).length) heq
                simp only at h3
                rw [parseRows_table_length] at h3
                rw [ih]
                exact h3.symm

/-! ## Theorems for the BDF-path claims -/

/-- Claim C3: for the canonical well-formed single-glyph BDF input with
bounding box `8 8 0 0` and requested range `[65, 65]` — codepoint 65
present via an `ENCODING`/`BITMAP` pair whose eight rows carry arbitrary
byte values, written as hex digit pairs — the bytes placed into the
codepoint's table slot equal the source hex rows byte for byte, row-major,
one byte per row. -/
theorem bdf_glyph_bytes_roundtrip (rows : List (Nat × Nat)) (out : Pixel_Font)
    (hlen : rows.length = 8) (hdig : ∀ p ∈ rows, p.1 < 16 ∧ p.2 < 16) :
    create_pixel_font_from_bdf (mkBdf8 rows) 65 65 out =
      (.SUCCESS,
       { table := rows.map (fun p => p.1 * 16 + p.2), char_px_width := 8,
         char_px_height := 8, bytes_per_line := 1, bytes_per_glyph := 8 }) := by
  have hmk : mkBdf8 rows = mkBdfTail (encodeRows rows ++ "ENDCHAR\nENDFONT\n".toList) := by
    simp [mkBdf8, mkBdfTail]
  rw [hmk, bdf8_expand, glyphLoop_bdf8_step]
  have htail : eat_whitespace ("ENDCHAR\nENDFONT\n".toList) =
      "ENDCHAR\nENDFONT\n".toList := rfl
  have hc2 : eat_whitespace (encodeRows rows ++ "ENDCHAR\nENDFONT\n".toList) =
      encodeRows rows ++ "ENDCHAR\nENDFONT\n".toList :=
    eat_whitespace_encodeRows rows _ hdig htail
  rw [hc2]
  have hlen2 : (encodeRows rows ++ "ENDCHAR\nENDFONT\n".toList).length = 40 := by
    simp [List.length_append, encodeRows_length, hlen]
  rw [hlen2, if_neg (by omega)]
  have hpr := parseRows_encodeRows rows (List.replicate 8 170) 0
    ("ENDCHAR\nENDFONT\n".toList) hdig htail
  rw [hlen] at hpr
  rw [hpr]
  simp only [glyphLoop_trailer]
  rw [writeBytes_zero_full _ _ (by simp [hlen])]

/-- Claim C3 (witness): the spec's concrete scenario — eight rows of
`"FF"` — yields a table of exactly eight bytes, each `0xFF`. -/
theorem bdf_glyph_bytes_roundtrip_witness :
    ffRows.length = 8 ∧
    create_pixel_font_from_bdf (mkBdf8 ffRows) 65 65 emptyFont =
      (.SUCCESS,
       { table := [255, 255, 255, 255, 255, 255, 255, 255], char_px_width := 8,
         char_px_height := 8, bytes_per_line := 1, bytes_per_glyph := 8 }) := by
  refine ⟨rfl, ?_⟩
  have h := bdf_glyph_bytes_roundtrip ffRows emptyFont rfl (by decide)
  rw [h]
  rfl

/-- Claim C4: for every BDF input whose `FONTBOUNDINGBOX` declares width
`W` and height `H` (within `s32`/`u16` range, with the table size below
the `u32` limit) and every requested inclusive range with
`cp_start ≤ cp_end`, on success the allocated table length equals
`ceil(W/8) * H * (cp_end - cp_start + 1)`, with `bytes_per_line =
ceil(W/8)` and `bytes_per_glyph = bytes_per_line * H` reported in the
output struct. -/
theorem bdf_table_size (content : List Char) (cps cpe : Nat) (out : Pixel_Font)
    (W H : Nat) (a b : Int)
    (hbox : scan4Ints (seekTok fbbTok content) = some ((W : Int), (H : Int), a, b))
    (hW : W < 2 ^ 31) (hH : H < 2 ^ 16) (hse : cps ≤ cpe)
    (htot : ((W + 7) / 8) * H * (cpe - cps + 1) < 2 ^ 32)
    (_hsucc : (create_pixel_font_from_bdf content cps cpe out).1 = .SUCCESS) :
    ((create_pixel_font_from_bdf content cps cpe out).2).table.length =
        ((W + 7) / 8) * H * (cpe - cps + 1) ∧
      ((create_pixel_font_from_bdf content cps cpe out).2).bytes_per_line = (W + 7) / 8 ∧
      ((create_pixel_font_from_bdf content cps cpe out).2).bytes_per_glyph =
        ((W + 7) / 8) * H := by
  have hne : ¬((seekTok fbbTok content).length = 0) := by
    intro h0
    rw [List.eq_nil_of_length_eq_zero h0] at hbox
    exact Option.noConfusion hbox
  have htd : ((W : Int)).tdiv 8 = ((W / 8 : Nat) : Int) := rfl
  have htm : ((W : Int)).tmod 8 = ((W % 8 : Nat) : Int) := rfl
  have hbpl : u32OfInt (((W : Int)).tdiv 8 + if ((W : Int)).tmod 8 ≠ 0 then 1 else 0) =
      (W + 7) / 8 := by
    rw [htd, htm]
    by_cases hm : W % 8 = 0
    · rw [if_neg (by simp [hm])]
      rw [show ((W / 8 : Nat) : Int) + 0 = ((W / 8 : Nat) : Int) by ring, u32OfInt_natCast]
      omega
    · rw [if_pos (Nat.cast_ne_zero.mpr hm)]
      rw [show ((W / 8 : Nat) : Int) + 1 = ((W / 8 + 1 : Nat) : Int) by push_cast; ring,
        u32OfInt_natCast]
      omega
  have hr1 : 1 ≤ cpe - cps + 1 := by omega
  have hbplH : (W + 7) / 8 * H < 2 ^ 32 :=
    lt_of_le_of_lt (Nat.le_mul_of_pos_right _ (by omega)) htot
  have hbpg : u32OfInt (H : Int) * ((W + 7) / 8) % 4294967296 = (W + 7) / 8 * H := by
    rw [u32OfInt_natCast]
    rw [Nat.mod_eq_of_lt (by omega : H < 4294967296)]
    rw [Nat.mul_comm]
    exact Nat.mod_eq_of_lt (by omega)
  have hcpr : u32OfInt ((cpe : Int) - (cps : Int) + 1) = (cpe - cps + 1) % 4294967296 := by
    rw [show (cpe : Int) - (cps : Int) + 1 = ((cpe - cps + 1 : Nat) : Int) by omega]
    exact u32OfInt_natCast _
  have htotal : (W + 7) / 8 * H * ((cpe - cps + 1) % 4294967296) % 4294967296 =
      (W + 7) / 8 * H * (cpe - cps + 1) := by
    conv_lhs => rw [Nat.mul_mod, Nat.mod_mod_of_dvd _ (by norm_num), ← Nat.mul_mod]
    exact Nat.mod_eq_of_lt (by omega)
  simp only [create_pixel_font_from_bdf, if_neg hne, hbox, hbpl, hbpg, hcpr, htotal,
    glyphLoop_table_length, List.length_replicate]
  exact ⟨by trivial, by trivial, by trivial⟩

/-- Claim C4 (witness): a 16 x 4 bounding box and range `[60, 62]` yield a
24-byte table with 2 bytes per line and 8 bytes per glyph. -/
theorem bdf_table_size_witness :
    ((create_pixel_font_from_bdf c4input 60 62 emptyFont).2).table.length = 24 ∧
      ((create_pixel_font_from_bdf c4input 60 62 emptyFont).2).bytes_per_line = 2 ∧
      ((create_pixel_font_from_bdf c4input 60 62 emptyFont).2).bytes_per_glyph = 8 := by
  have h := bdf_table_size c4input 60 62 emptyFont 16 4 0 0 rfl (by norm_num)
    (by norm_num) (by norm_num) (by norm_num) rfl
  exact ⟨by rw [h.1], by rw [h.2.1], by rw [h.2.2]⟩

/-- Claim C5 (code evaluated at the failing input): for a BDF input with
bounding box `8 8 0 0` (one byte per line) containing no glyphs and the
requested range `[65, 66]`, both untouched slots keep the placeholder fill
— but that fill is the single byte `0xAA` repeated (`memset` truncates the
16-bit pattern `0b0101010110101010`, i.e. `0x55AA`, to its low byte), not
the `0x55AA`-style per-byte alternation the claim and the code's own
"checker board" comment describe. -/
theorem bdf_placeholder_uniform_not_alternating :
    (create_pixel_font_from_bdf c5input 65 66 emptyFont).1 = .SUCCESS ∧
    ((create_pixel_font_from_bdf c5input 65 66 emptyFont).2).table =
      List.replicate 16 170 ∧
    List.replicate 16 170 ≠
      [85, 170, 85, 170, 85, 170, 85, 170, 85, 170, 85, 170, 85, 170, 85, 170] := by
  refine ⟨rfl, rfl, by decide⟩

/-- Claim C6 (counterexample): a single-glyph BDF input that ends exactly
`height * (2*bytes_per_line + 1) = 24` bytes after the `BITMAP` line — so
that at the bounds check precisely the needed number of bytes remains, not
fewer — is rejected with `BDF_ERROR_PARSING_CHARACTER_BYTES`, because the
check uses `needed_bytes >= cursor.length` instead of `>`. -/
theorem bdf_truncation_exact_fit_cex :
    (eat_whitespace (seekTok bmpTok (seekTok encTok (seekTok fbbTok
        (mkBdfTail (encodeRows ffRows)))))).length = 24 ∧
    8 * (2 * 1 + 1) = 24 ∧
    (create_pixel_font_from_bdf (mkBdfTail (encodeRows ffRows)) 65 65 emptyFont).1 =
      .BDF_ERROR_PARSING_CHARACTER_BYTES := by
  refine ⟨rfl, rfl, rfl⟩

/-- Claim C6 (amended): after locating a glyph's `BITMAP` line the builder
fails with the character-bytes-truncated error whenever at most
`height * (2*bytes_per_line + 1)` bytes remain in the input (the check is
`needed_bytes >= cursor.length`, so the case of exactly that many
remaining bytes also fails); it proceeds to parse the glyph's rows only
when strictly more bytes remain.  Stated for the canonical 8 x 8
single-glyph input, whose needed byte count is 24. -/
theorem bdf_truncation_at_most_needed (rows : List Char) (out : Pixel_Font)
    (hlen : rows.length ≤ 24) :
    (create_pixel_font_from_bdf (mkBdfTail rows) 65 65 out).1 =
      .BDF_ERROR_PARSING_CHARACTER_BYTES := by
  rw [bdf8_expand, glyphLoop_bdf8_step]
  have h24 : 24 ≥ (eat_whitespace rows).length :=
    le_trans (eat_whitespace_length_le rows) hlen
  simp [if_pos h24]

/-- Claim C6 (witness for the amended theorem): a glyph whose bitmap text
holds only one of the eight needed rows is rejected as truncated. -/
theorem bdf_truncation_at_most_needed_witness :
    (create_pixel_font_from_bdf (mkBdfTail ("FF\n".toList)) 65 65 emptyFont).1 =
      .BDF_ERROR_PARSING_CHARACTER_BYTES :=
  bdf_truncation_at_most_needed ("FF\n".toList) emptyFont (by norm_num)

/-- Claim C7: when the input is exhausted before a line starting with
`"FONTBOUNDINGBOX "` is found, the builder returns
`BDF_DID_NOT_SPECIFY_FONTBOUNDINGBOX` with the caller's output struct
exactly as passed in — the return happens before the table allocation and
before any field assignment. -/
theorem bdf_missing_boundingbox_untouched (content : List Char) (cps cpe : Nat)
    (out : Pixel_Font) (h : (seekTok fbbTok content).length = 0) :
    create_pixel_font_from_bdf content cps cpe out =
      (.BDF_DID_NOT_SPECIFY_FONTBOUNDINGBOX, out) := by
  simp [create_pixel_font_from_bdf, h]

/-- Claim C7 (witness): an input with no `FONTBOUNDINGBOX` line at all. -/
theorem bdf_missing_boundingbox_untouched_witness :
    create_pixel_font_from_bdf c7input 65 65 emptyFont =
      (.BDF_DID_NOT_SPECIFY_FONTBOUNDINGBOX, emptyFont) :=
  bdf_missing_boundingbox_untouched c7input 65 65 emptyFont (by rfl)

end PixelFontBaker
